import Mathlib

/-!
Shallow embedding of `src/paste/helper.py` (the PASTE spatial helper
routines) over exact real arithmetic.  Point sets and dense matrices are
functions out of `Fin`; `numpy` float arithmetic is modelled by `ℝ`.

The two external numerical solvers the source calls, `ot.emd` (POT's
discrete optimal-transport solver) and
`scipy.sparse.csgraph.min_weight_full_bipartite_matching`, are not part of
this repository, so `match_spots_using_spatial_heuristic` is parametrised
by the two solver functions, and theorems assume exactly the documented
contract of each solver (`IsOptimalCoupling`, `MatcherOK`).

A Python call that raises (taking `min` of an empty sequence inside
`norm_and_center_coordinates`, the shape assertion in the divergence
routines) is modelled by `Option`: `none` is the raised error.
-/

namespace Paste

/-- Euclidean distance between two `d`-dimensional points, as computed by
`scipy.spatial.distance_matrix` and `scipy.spatial.distance.pdist`. -/
noncomputable def ptDist {d : ℕ} (x y : Fin d → ℝ) : ℝ :=
  Real.sqrt (∑ k, (x k - y k) ^ 2)

/-- The unordered index pairs `i < j` whose distances
`scipy.spatial.distance.pdist` returns. -/
def pdistPairs (n : ℕ) : Finset (Fin n × Fin n) :=
  Finset.univ.filter (fun p => p.1 < p.2)

lemma pdistPairs_nonempty {n : ℕ} (h : 1 < n) : (pdistPairs n).Nonempty := by
  refine ⟨(⟨0, by omega⟩, ⟨1, h⟩), ?_⟩
  simp [pdistPairs]

/-- `min(scipy.spatial.distance.pdist(X))`: the minimum pairwise Euclidean
distance of a point set with at least two points. -/
noncomputable def minPdist {n d : ℕ} (X : Fin n → Fin d → ℝ) (h : 1 < n) : ℝ :=
  (pdistPairs n).inf' (pdistPairs_nonempty h) (fun p => ptDist (X p.1) (X p.2))

/-- `X.mean(axis=0)`: the per-dimension mean of the point set, coordinate
`j`. -/
noncomputable def colMean {n d : ℕ} (X : Fin n → Fin d → ℝ) (j : Fin d) : ℝ :=
  (∑ i, X i j) / n

/-- `norm_and_center_coordinates(X) = (X - X.mean(axis=0)) / min(pdist(X))`.
Python's `min` raises on an empty sequence, so a point set with fewer than
two points is the error case (`none`); no other input is rejected. -/
noncomputable def norm_and_center_coordinates {n d : ℕ} (X : Fin n → Fin d → ℝ) :
    Option (Fin n → Fin d → ℝ) :=
  if h : 1 < n then
    some (fun i j => (X i j - colMean X j) / minPdist X h)
  else
    none

/-- `scipy.spatial.distance_matrix(X, Y)`. -/
noncomputable def distance_matrix {n1 n2 d : ℕ} (X : Fin n1 → Fin d → ℝ)
    (Y : Fin n2 → Fin d → ℝ) : Fin n1 → Fin n2 → ℝ :=
  fun i j => ptDist (X i) (Y j)

/-- The matrix built in the `use_ot=False` branch of
`match_spots_using_spatial_heuristic` from the matching `(ri, ci)`:
`pi = np.zeros((n1,n2)); pi[ri, ci] = 1/max(n1,n2)`, after which, when
`n1 < n2`, every column outside `ci` is overwritten with `1/(n1*n2)` in all
rows, and symmetrically, when `n2 < n1`, every row outside `ri` is
overwritten with `1/(n1*n2)` in all columns. -/
noncomputable def buildPi (n1 n2 : ℕ) (ri ci : List ℕ) : Fin n1 → Fin n2 → ℝ :=
  fun i j =>
    if n1 < n2 then
      if j.1 ∈ ci then
        (if (i.1, j.1) ∈ ri.zip ci then 1 / ((max n1 n2 : ℕ) : ℝ) else 0)
      else 1 / ((n1 : ℝ) * (n2 : ℝ))
    else if n2 < n1 then
      if i.1 ∈ ri then
        (if (i.1, j.1) ∈ ri.zip ci then 1 / ((max n1 n2 : ℕ) : ℝ) else 0)
      else 1 / ((n1 : ℝ) * (n2 : ℝ))
    else
      (if (i.1, j.1) ∈ ri.zip ci then 1 / ((max n1 n2 : ℕ) : ℝ) else 0)

/-- `match_spots_using_spatial_heuristic(X, Y, use_ot)`.  The two external
solvers are parameters: `emd a b D` stands for `ot.emd(a, b, D)` and
`matcher D` for
`scipy.sparse.csgraph.min_weight_full_bipartite_matching(csr_matrix(D))`,
returning the row and column index arrays. -/
noncomputable def match_spots_using_spatial_heuristic {n1 n2 d : ℕ}
    (emd : (Fin n1 → ℝ) → (Fin n2 → ℝ) → (Fin n1 → Fin n2 → ℝ) → Fin n1 → Fin n2 → ℝ)
    (matcher : (Fin n1 → Fin n2 → ℝ) → List ℕ × List ℕ)
    (X : Fin n1 → Fin d → ℝ) (Y : Fin n2 → Fin d → ℝ) (use_ot : Bool) :
    Option (Fin n1 → Fin n2 → ℝ) :=
  match norm_and_center_coordinates X, norm_and_center_coordinates Y with
  | some X2, some Y2 =>
      if use_ot then
        some (emd (fun _ => 1 / (n1 : ℝ)) (fun _ => 1 / (n2 : ℝ))
          (distance_matrix X2 Y2))
      else
        some (buildPi n1 n2 (matcher (distance_matrix X2 Y2)).1
          (matcher (distance_matrix X2 Y2)).2)
  | _, _ => none

/-- Row normalization `X / X.sum(axis=1, keepdims=True)`. -/
noncomputable def rowNormalize {n k : ℕ} (X : Fin n → Fin k → ℝ) : Fin n → Fin k → ℝ :=
  fun i f => X i f / ∑ g, X i g

/-- `kl_divergence(X, Y)`: the `assert X.shape[1] == Y.shape[1]` is the
`none` case; otherwise rows are normalized and
`D = X_log_X.T - np.dot(X, log_Y.T)` with
`X_log_X[i] = np.dot(X[i], log_X[i])`. -/
noncomputable def kl_divergence {n k1 m k2 : ℕ} (X : Fin n → Fin k1 → ℝ)
    (Y : Fin m → Fin k2 → ℝ) : Option (Fin n → Fin m → ℝ) :=
  if h : k1 = k2 then
    some (fun i j =>
      Matrix.dotProduct (rowNormalize X i) (fun f => Real.log (rowNormalize X i f)) -
      Matrix.dotProduct (rowNormalize X i)
        (fun f => Real.log (rowNormalize Y j (Fin.cast h f))))
  else
    none

/-- `kl_divergence_backend(X, Y)`: the same computation through the POT
backend, with `X_log_X = nx.einsum('ij,ij->i', X, log_X)` and the same
shape assertion. -/
noncomputable def kl_divergence_backend {n k1 m k2 : ℕ} (X : Fin n → Fin k1 → ℝ)
    (Y : Fin m → Fin k2 → ℝ) : Option (Fin n → Fin m → ℝ) :=
  if h : k1 = k2 then
    some (fun i j =>
      (∑ f, rowNormalize X i f * Real.log (rowNormalize X i f)) -
      ∑ f, rowNormalize X i f * Real.log (rowNormalize Y j (Fin.cast h f)))
  else
    none

/-- `intersect(lst1, lst2)`: `temp = set(lst2)` followed by the list
comprehension `[value for value in lst1 if value in temp]`. -/
def intersect {α : Type} [DecidableEq α] (lst1 lst2 : List α) : List α :=
  lst1.filter (fun value => value ∈ lst2)

/-- The transport-plan constraints on the output of `ot.emd` for marginal
vectors `a` and `b`: prescribed row sums, prescribed column sums,
non-negative entries. -/
def IsCoupling {n1 n2 : ℕ} (a : Fin n1 → ℝ) (b : Fin n2 → ℝ)
    (P : Fin n1 → Fin n2 → ℝ) : Prop :=
  (∀ i, ∑ j, P i j = a i) ∧ (∀ j, ∑ i, P i j = b j) ∧ ∀ i j, 0 ≤ P i j

/-- Total transport cost `Σ P[i,j] * D[i,j]`. -/
noncomputable def transportCost {n1 n2 : ℕ} (D P : Fin n1 → Fin n2 → ℝ) : ℝ :=
  ∑ i, ∑ j, P i j * D i j

/-- The documented contract of `ot.emd`: a feasible coupling of minimum
total transport cost. -/
def IsOptimalCoupling {n1 n2 : ℕ} (a : Fin n1 → ℝ) (b : Fin n2 → ℝ)
    (D P : Fin n1 → Fin n2 → ℝ) : Prop :=
  IsCoupling a b P ∧ ∀ Q, IsCoupling a b Q → transportCost D P ≤ transportCost D Q

/-- The documented contract of
`scipy.sparse.csgraph.min_weight_full_bipartite_matching`: row and column
index arrays of length `min(n1, n2)`, each without repetition and within
range. -/
def MatcherOK (n1 n2 : ℕ) (rc : List ℕ × List ℕ) : Prop :=
  rc.1.length = min n1 n2 ∧ rc.2.length = min n1 n2 ∧
  rc.1.Nodup ∧ rc.2.Nodup ∧ (∀ i ∈ rc.1, i < n1) ∧ (∀ j ∈ rc.2, j < n2)

lemma ptDist_self {d : ℕ} (x : Fin d → ℝ) : ptDist x x = 0 := by
  simp [ptDist]

lemma ptDist_nonneg {d : ℕ} (x y : Fin d → ℝ) : 0 ≤ ptDist x y :=
  Real.sqrt_nonneg _

lemma norm_and_center_eq_some {n d : ℕ} (X : Fin n → Fin d → ℝ) (h : 1 < n) :
    norm_and_center_coordinates X =
      some (fun i j => (X i j - colMean X j) / minPdist X h) := by
  rw [norm_and_center_coordinates, dif_pos h]

lemma norm_and_center_spec {n d : ℕ} {X X2 : Fin n → Fin d → ℝ}
    (h : norm_and_center_coordinates X = some X2) :
    ∃ h1 : 1 < n, X2 = fun i j => (X i j - colMean X j) / minPdist X h1 := by
  by_cases h1 : 1 < n
  · refine ⟨h1, ?_⟩
    rw [norm_and_center_eq_some X h1] at h
    exact (Option.some_injective _ h).symm
  · rw [norm_and_center_coordinates, dif_neg h1] at h
    exact absurd h (by simp)

lemma minPdist_nonneg {n d : ℕ} (X : Fin n → Fin d → ℝ) (h : 1 < n) :
    0 ≤ minPdist X h :=
  Finset.le_inf' _ _ (fun _ _ => ptDist_nonneg _ _)

/-- C4: for a point set with at least 2 points, among them two distinct
ones, `norm_and_center_coordinates` succeeds, the per-dimension mean of
the result is the zero vector, and each coordinate of the result is the
centered coordinate divided by the minimum pairwise Euclidean distance of
the original (uncentered) set. -/
theorem C4_norm_and_center_centers {n d : ℕ} (X : Fin n → Fin d → ℝ)
    (h2 : 1 < n) (_hdist : ∃ i j : Fin n, X i ≠ X j) :
    ∃ X2, norm_and_center_coordinates X = some X2 ∧
      (∀ j, colMean X2 j = 0) ∧
      (∀ i j, X2 i j = (X i j - colMean X j) / minPdist X h2) := by
  refine ⟨_, norm_and_center_eq_some X h2, ?_, fun i j => rfl⟩
  intro j
  have hn : (n : ℝ) ≠ 0 := Nat.cast_ne_zero.mpr (by omega)
  rw [colMean]
  rw [← Finset.sum_div, Finset.sum_sub_distrib, Finset.sum_const,
    Finset.card_univ, Fintype.card_fin, nsmul_eq_mul, colMean, mul_comm,
    div_mul_cancel₀ _ hn, sub_self, zero_div, zero_div]

/-- The concrete two-point one-dimensional set {0, 1} used as a witness
input. -/
def twoPoints : Fin 2 → Fin 1 → ℝ := fun i _ => if i = 0 then 0 else 1

/-- Witness for C4 at the two one-dimensional points 0 and 1. -/
theorem C4_witness :
    ∃ X2, norm_and_center_coordinates twoPoints = some X2 ∧
      (∀ j, colMean X2 j = 0) ∧
      (∀ i j, X2 i j = (twoPoints i j - colMean twoPoints j) /
          minPdist twoPoints (by norm_num)) :=
  C4_norm_and_center_centers twoPoints (by norm_num)
    ⟨0, 1, fun hc => by simpa [twoPoints] using congrFun hc 0⟩

/-- C5 counterexample: on two identical points (here both at coordinate 5)
`norm_and_center_coordinates` does not report any invalid-input error: it
returns a result, even though the minimum pairwise distance it divides by
is 0. -/
theorem C5_counterexample :
    (norm_and_center_coordinates (fun _ _ => 5 : Fin 2 → Fin 1 → ℝ)).isSome
        = true ∧
    minPdist (fun _ _ => 5 : Fin 2 → Fin 1 → ℝ) (by norm_num) = 0 := by
  constructor
  · rw [norm_and_center_eq_some _ (by norm_num)]; rfl
  · refine le_antisymm ?_ (minPdist_nonneg _ (by norm_num))
    have h01 : ((⟨0, by omega⟩ : Fin 2), (⟨1, by omega⟩ : Fin 2)) ∈
        pdistPairs 2 := by
      simp [pdistPairs]
    calc minPdist (fun _ _ => 5 : Fin 2 → Fin 1 → ℝ) (by norm_num) ≤
        ptDist (fun _ => (5 : ℝ)) (fun _ => (5 : ℝ)) := Finset.inf'_le _ h01
      _ = 0 := ptDist_self _

/-- C5 amended: on an all-identical point set with at least two points,
`norm_and_center_coordinates` reports no error: it returns a result
obtained by dividing by the minimum pairwise distance, which is 0 (in the
floating-point source this division by zero propagates silently as
inf/nan).  Only a set of fewer than two points raises. -/
theorem C5_amended_no_error_on_identical {n d : ℕ} (X : Fin n → Fin d → ℝ)
    (h2 : 1 < n) (hid : ∀ i j, X i = X j) :
    (norm_and_center_coordinates X).isSome = true ∧ minPdist X h2 = 0 := by
  constructor
  · rw [norm_and_center_eq_some X h2]; rfl
  · refine le_antisymm ?_ (minPdist_nonneg X h2)
    have h01 : ((⟨0, by omega⟩ : Fin n), (⟨1, h2⟩ : Fin n)) ∈ pdistPairs n := by
      simp [pdistPairs]
    calc minPdist X h2 ≤ ptDist (X ⟨0, by omega⟩) (X ⟨1, h2⟩) :=
        Finset.inf'_le _ h01
      _ = 0 := by rw [hid ⟨0, by omega⟩ ⟨1, h2⟩, ptDist_self]

/-- Witness for the amended C5 at two identical points at the origin. -/
theorem C5_witness :
    (norm_and_center_coordinates (fun _ _ => 0 : Fin 2 → Fin 1 → ℝ)).isSome
        = true ∧
    minPdist (fun _ _ => 0 : Fin 2 → Fin 1 → ℝ) (by norm_num) = 0 :=
  C5_amended_no_error_on_identical _ (by norm_num) (fun i j => rfl)

/-- C8: `kl_divergence` (and likewise `kl_divergence_backend`) raises its
shape-mismatch assertion error exactly when the feature dimensions of its
two inputs differ, and returns a result whenever they agree. -/
theorem C8_kl_divergence_shape_error {n k1 m k2 : ℕ}
    (X : Fin n → Fin k1 → ℝ) (Y : Fin m → Fin k2 → ℝ) :
    (kl_divergence X Y = none ↔ k1 ≠ k2) ∧
    (kl_divergence_backend X Y = none ↔ k1 ≠ k2) := by
  by_cases h : k1 = k2 <;>
    simp [kl_divergence, kl_divergence_backend, h]

/-- C9: `intersect` returns exactly the elements of `lst1` that occur in
`lst2` (a sublist of `lst1`, hence in `lst1`'s order), preserving
duplicates as they appear in `lst1` (multiplicities agree); in particular
`intersect [1,2,2,3] [2,3,4] = [2,2,3]`. -/
theorem C9_intersect_spec :
    (∀ (α : Type) [DecidableEq α] (lst1 lst2 : List α),
      (intersect lst1 lst2).Sublist lst1 ∧
      (∀ x, x ∈ intersect lst1 lst2 ↔ x ∈ lst1 ∧ x ∈ lst2) ∧
      (∀ x, (intersect lst1 lst2).count x =
        if x ∈ lst2 then lst1.count x else 0)) ∧
    intersect [1, 2, 2, 3] [2, 3, 4] = [2, 2, 3] := by
  constructor
  · intro α _ lst1 lst2
    refine ⟨List.filter_sublist lst1, ?_, ?_⟩
    · intro x
      simp [intersect, List.mem_filter]
    · intro x
      by_cases hx : x ∈ lst2
      · rw [if_pos hx]
        exact List.count_filter (by simpa using hx)
      · rw [if_neg hx]
        refine List.count_eq_zero.mpr ?_
        simp [intersect, List.mem_filter, hx]
  · decide

/-- C6: for matrices with equal feature dimension and strictly positive
entries (hence strictly positive row sums), `kl_divergence` returns the
matrix `D[i,j] = Σ_f X̂[i,f] * (log X̂[i,f] - log Ŷ[j,f])`, where `X̂` and
`Ŷ` are the inputs with each row divided by its sum. -/
theorem C6_kl_divergence_formula {n m k : ℕ} (X : Fin n → Fin k → ℝ)
    (Y : Fin m → Fin k → ℝ) (_hX : ∀ i f, 0 < X i f) (_hY : ∀ j f, 0 < Y j f) :
    kl_divergence X Y = some (fun i j => ∑ f,
      rowNormalize X i f *
        (Real.log (rowNormalize X i f) - Real.log (rowNormalize Y j f))) := by
  rw [kl_divergence, dif_pos rfl]
  congr 1
  funext i j
  simp only [Matrix.dotProduct, Fin.cast_refl, id_eq, mul_sub,
    Finset.sum_sub_distrib]

/-- The concrete strictly positive 1-by-1 matrix used as a witness input
for the divergence claims. -/
def oneByOne : Fin 1 → Fin 1 → ℝ := fun _ _ => 1

/-- Witness for C6 at a pair of 1-by-1 strictly positive matrices. -/
theorem C6_witness :
    kl_divergence oneByOne oneByOne = some (fun i j => ∑ f,
      rowNormalize oneByOne i f *
        (Real.log (rowNormalize oneByOne i f) -
          Real.log (rowNormalize oneByOne j f))) :=
  C6_kl_divergence_formula oneByOne oneByOne
    (fun _ _ => by norm_num [oneByOne]) (fun _ _ => by norm_num [oneByOne])

/-- C7: `kl_divergence` and `kl_divergence_backend` agree exactly (in the
exact-real model; in floating point the spec allows a 1e-6 relative
tolerance) on every valid input pair: equal feature dimension and strictly
positive entries.  The two source routines compute the same sums, one via
`np.dot` per row, the other via `nx.einsum`. -/
theorem C7_kl_divergence_backend_equiv {n m k : ℕ} (X : Fin n → Fin k → ℝ)
    (Y : Fin m → Fin k → ℝ) (_hX : ∀ i f, 0 < X i f)
    (_hY : ∀ j f, 0 < Y j f) :
    kl_divergence X Y = kl_divergence_backend X Y := rfl

/-- Witness for C7 at a pair of 1-by-1 strictly positive matrices. -/
theorem C7_witness :
    kl_divergence oneByOne oneByOne = kl_divergence_backend oneByOne oneByOne :=
  C7_kl_divergence_backend_equiv oneByOne oneByOne
    (fun _ _ => by norm_num [oneByOne]) (fun _ _ => by norm_num [oneByOne])

lemma inf'_mul_left {ι : Type} {s : Finset ι} (H : s.Nonempty) (f : ι → ℝ)
    {a : ℝ} (ha : 0 ≤ a) :
    s.inf' H (fun p => a * f p) = a * s.inf' H f := by
  obtain ⟨p0, hp0, hEq⟩ := Finset.exists_mem_eq_inf' H f
  refine le_antisymm ?_ ?_
  · rw [hEq]
    exact Finset.inf'_le _ hp0
  · refine Finset.le_inf' _ _ (fun b hb => ?_)
    exact mul_le_mul_of_nonneg_left (Finset.inf'_le _ hb) ha

lemma ptDist_affine {d : ℕ} (a : ℝ) (ha : 0 ≤ a) (t : Fin d → ℝ)
    (x y : Fin d → ℝ) :
    ptDist (fun k => a * x k + t k) (fun k => a * y k + t k) =
      a * ptDist x y := by
  rw [ptDist, ptDist]
  have hsq : ∀ k : Fin d, (a * x k + t k - (a * y k + t k)) ^ 2 =
      a ^ 2 * (x k - y k) ^ 2 := fun k => by ring
  simp only [hsq]
  rw [← Finset.mul_sum, Real.sqrt_mul (sq_nonneg a), Real.sqrt_sq ha]

lemma colMean_affine {n d : ℕ} (hn : 0 < n) (a : ℝ) (t : Fin d → ℝ)
    (X : Fin n → Fin d → ℝ) (j : Fin d) :
    colMean (fun i k => a * X i k + t k) j = a * colMean X j + t j := by
  have hcast : (n : ℝ) ≠ 0 := Nat.cast_ne_zero.mpr hn.ne'
  rw [colMean, colMean, Finset.sum_add_distrib, ← Finset.mul_sum,
    Finset.sum_const, Finset.card_univ, Fintype.card_fin, nsmul_eq_mul,
    add_div, mul_div_assoc, mul_div_cancel_left₀ _ hcast]

lemma minPdist_affine {n d : ℕ} (X : Fin n → Fin d → ℝ) (h : 1 < n) (a : ℝ)
    (ha : 0 ≤ a) (t : Fin d → ℝ) :
    minPdist (fun i k => a * X i k + t k) h = a * minPdist X h := by
  rw [minPdist, minPdist]
  have hfun : (fun p : Fin n × Fin n =>
      ptDist (fun k => a * X p.1 k + t k) (fun k => a * X p.2 k + t k)) =
      fun p => a * ptDist (X p.1) (X p.2) :=
    funext fun p => ptDist_affine a ha t _ _
  rw [hfun, inf'_mul_left _ _ ha]

lemma norm_and_center_affine {n d : ℕ} (X : Fin n → Fin d → ℝ) (a : ℝ)
    (ha : 0 < a) (t : Fin d → ℝ) :
    norm_and_center_coordinates (fun i k => a * X i k + t k) =
      norm_and_center_coordinates X := by
  by_cases h : 1 < n
  · rw [norm_and_center_eq_some _ h, norm_and_center_eq_some X h]
    congr 1
    funext i j
    rw [colMean_affine (by omega) a t X j, minPdist_affine X h a ha.le t]
    have hnum : a * X i j + t j - (a * colMean X j + t j) =
        a * (X i j - colMean X j) := by ring
    rw [hnum, mul_div_mul_left _ _ ha.ne']
  · rw [norm_and_center_coordinates, dif_neg h,
      norm_and_center_coordinates, dif_neg h]

/-- C10: `norm_and_center_coordinates` is exactly invariant under
translation and uniform positive scaling of a point set with at least two
distinct points, and hence the coupling matrix produced by
`match_spots_using_spatial_heuristic` is invariant under independent
translation and uniform positive scaling of each input point set. -/
theorem C10_affine_invariance {n1 n2 d : ℕ}
    (emd : (Fin n1 → ℝ) → (Fin n2 → ℝ) → (Fin n1 → Fin n2 → ℝ) →
      Fin n1 → Fin n2 → ℝ)
    (matcher : (Fin n1 → Fin n2 → ℝ) → List ℕ × List ℕ)
    (X : Fin n1 → Fin d → ℝ) (Y : Fin n2 → Fin d → ℝ) (a b : ℝ)
    (ha : 0 < a) (hb : 0 < b) (t u : Fin d → ℝ)
    (_hdX : ∃ i j : Fin n1, X i ≠ X j) (_hdY : ∃ i j : Fin n2, Y i ≠ Y j) :
    norm_and_center_coordinates (fun i k => a * X i k + t k) =
      norm_and_center_coordinates X ∧
    ∀ use_ot, match_spots_using_spatial_heuristic emd matcher
        (fun i k => a * X i k + t k) (fun i k => b * Y i k + u k) use_ot =
      match_spots_using_spatial_heuristic emd matcher X Y use_ot := by
  refine ⟨norm_and_center_affine X a ha t, fun use_ot => ?_⟩
  rw [match_spots_using_spatial_heuristic,
    match_spots_using_spatial_heuristic, norm_and_center_affine X a ha t,
    norm_and_center_affine Y b hb u]

/-- A constant stand-in for the `ot.emd` solver parameter, usable at size
2-by-2. -/
noncomputable def emdW : (Fin 2 → ℝ) → (Fin 2 → ℝ) → (Fin 2 → Fin 2 → ℝ) →
    Fin 2 → Fin 2 → ℝ :=
  fun _ _ _ => fun i j => if i = j then 1 / 2 else 0

/-- A constant stand-in for the bipartite-matcher parameter, usable at
size 2-by-2. -/
def matcherW : (Fin 2 → Fin 2 → ℝ) → List ℕ × List ℕ :=
  fun _ => ([0, 1], [0, 1])

/-- Witness for C10: scaling by 2 and 3 and translating by 1 and 5 the
two-point set {0, 1}. -/
theorem C10_witness :
    norm_and_center_coordinates (fun i k => 2 * twoPoints i k + 1) =
      norm_and_center_coordinates twoPoints ∧
    ∀ use_ot, match_spots_using_spatial_heuristic emdW matcherW
        (fun i k => 2 * twoPoints i k + 1)
        (fun i k => 3 * twoPoints i k + 5) use_ot =
      match_spots_using_spatial_heuristic emdW matcherW twoPoints twoPoints
        use_ot :=
  C10_affine_invariance emdW matcherW twoPoints twoPoints 2 3 (by norm_num)
    (by norm_num) (fun _ => 1) (fun _ => 5)
    ⟨0, 1, fun hc => by simpa [twoPoints] using congrFun hc 0⟩
    ⟨0, 1, fun hc => by simpa [twoPoints] using congrFun hc 0⟩

lemma match_spots_true_eq {n1 n2 d : ℕ}
    (emd : (Fin n1 → ℝ) → (Fin n2 → ℝ) → (Fin n1 → Fin n2 → ℝ) →
      Fin n1 → Fin n2 → ℝ)
    (matcher : (Fin n1 → Fin n2 → ℝ) → List ℕ × List ℕ)
    {X : Fin n1 → Fin d → ℝ} {Y : Fin n2 → Fin d → ℝ}
    {X2 : Fin n1 → Fin d → ℝ} {Y2 : Fin n2 → Fin d → ℝ}
    (hX2 : norm_and_center_coordinates X = some X2)
    (hY2 : norm_and_center_coordinates Y = some Y2) :
    match_spots_using_spatial_heuristic emd matcher X Y true =
      some (emd (fun _ => 1 / (n1 : ℝ)) (fun _ => 1 / (n2 : ℝ))
        (distance_matrix X2 Y2)) := by
  rw [match_spots_using_spatial_heuristic, hX2, hY2]
  rfl

lemma match_spots_false_eq {n1 n2 d : ℕ}
    (emd : (Fin n1 → ℝ) → (Fin n2 → ℝ) → (Fin n1 → Fin n2 → ℝ) →
      Fin n1 → Fin n2 → ℝ)
    (matcher : (Fin n1 → Fin n2 → ℝ) → List ℕ × List ℕ)
    {X : Fin n1 → Fin d → ℝ} {Y : Fin n2 → Fin d → ℝ}
    {X2 : Fin n1 → Fin d → ℝ} {Y2 : Fin n2 → Fin d → ℝ}
    (hX2 : norm_and_center_coordinates X = some X2)
    (hY2 : norm_and_center_coordinates Y = some Y2) :
    match_spots_using_spatial_heuristic emd matcher X Y false =
      some (buildPi n1 n2 (matcher (distance_matrix X2 Y2)).1
        (matcher (distance_matrix X2 Y2)).2) := by
  rw [match_spots_using_spatial_heuristic, hX2, hY2]
  rfl

/-- C3: with `use_ot=true`, the coupling returned by
`match_spots_using_spatial_heuristic` has every row summing to `1/n1`,
every column summing to `1/n2`, all entries non-negative, total mass 1,
and minimum total transport cost among all matrices meeting those
marginals.  `ot.emd` is an external library, modelled by its documented
contract (`hemd`); the theorem shows the source passes it exactly the
uniform marginals and the normalized distance matrix and returns its
output unchanged. -/
theorem C3_ot_coupling {n1 n2 d : ℕ}
    (emd : (Fin n1 → ℝ) → (Fin n2 → ℝ) → (Fin n1 → Fin n2 → ℝ) →
      Fin n1 → Fin n2 → ℝ)
    (matcher : (Fin n1 → Fin n2 → ℝ) → List ℕ × List ℕ)
    (X : Fin n1 → Fin d → ℝ) (Y : Fin n2 → Fin d → ℝ)
    (X2 : Fin n1 → Fin d → ℝ) (Y2 : Fin n2 → Fin d → ℝ)
    (hX2 : norm_and_center_coordinates X = some X2)
    (hY2 : norm_and_center_coordinates Y = some Y2)
    (hemd : IsOptimalCoupling (fun _ => 1 / (n1 : ℝ)) (fun _ => 1 / (n2 : ℝ))
      (distance_matrix X2 Y2)
      (emd (fun _ => 1 / (n1 : ℝ)) (fun _ => 1 / (n2 : ℝ))
        (distance_matrix X2 Y2))) :
    ∃ P, match_spots_using_spatial_heuristic emd matcher X Y true = some P ∧
      (∀ i, ∑ j, P i j = 1 / (n1 : ℝ)) ∧
      (∀ j, ∑ i, P i j = 1 / (n2 : ℝ)) ∧
      (∀ i j, 0 ≤ P i j) ∧
      (∑ i, ∑ j, P i j = 1) ∧
      IsOptimalCoupling (fun _ => 1 / (n1 : ℝ)) (fun _ => 1 / (n2 : ℝ))
        (distance_matrix X2 Y2) P := by
  obtain ⟨h1, -⟩ := norm_and_center_spec hX2
  obtain ⟨hrow, hcol, hpos⟩ := hemd.1
  refine ⟨_, match_spots_true_eq emd matcher hX2 hY2, hrow, hcol, hpos, ?_,
    hemd⟩
  have hn : (n1 : ℝ) ≠ 0 := Nat.cast_ne_zero.mpr (by omega)
  calc ∑ i, ∑ j,
      emd (fun _ => 1 / (n1 : ℝ)) (fun _ => 1 / (n2 : ℝ))
        (distance_matrix X2 Y2) i j
      = ∑ i : Fin n1, 1 / (n1 : ℝ) := Finset.sum_congr rfl (fun i _ => hrow i)
    _ = 1 := by
        rw [Finset.sum_const, Finset.card_univ, Fintype.card_fin,
          nsmul_eq_mul, mul_one_div, div_self hn]

/-- The normalization of `twoPoints`, written out for use in witnesses. -/
noncomputable def twoPointsN : Fin 2 → Fin 1 → ℝ :=
  fun i j => (twoPoints i j - colMean twoPoints j) /
    minPdist twoPoints (by norm_num)

/-- Witness for C3 at the two-point set {0, 1} matched with itself, with a
solver stand-in returning the diagonal coupling, optimal there because the
diagonal of the self-distance matrix is zero. -/
theorem C3_witness :
    ∃ P, match_spots_using_spatial_heuristic emdW matcherW twoPoints
        twoPoints true = some P ∧
      (∀ i, ∑ j, P i j = 1 / ((2 : ℕ) : ℝ)) ∧
      (∀ j, ∑ i, P i j = 1 / ((2 : ℕ) : ℝ)) ∧
      (∀ i j, 0 ≤ P i j) ∧
      (∑ i, ∑ j, P i j = 1) ∧
      IsOptimalCoupling (fun _ => 1 / ((2 : ℕ) : ℝ)) (fun _ => 1 / ((2 : ℕ) : ℝ))
        (distance_matrix twoPointsN twoPointsN) P := by
  refine C3_ot_coupling emdW matcherW twoPoints twoPoints twoPointsN
    twoPointsN (norm_and_center_eq_some twoPoints (by norm_num))
    (norm_and_center_eq_some twoPoints (by norm_num)) ?_
  have hdiag : ∀ i, distance_matrix twoPointsN twoPointsN i i = 0 :=
    fun i => ptDist_self _
  have hDnn : ∀ i j, 0 ≤ distance_matrix twoPointsN twoPointsN i j :=
    fun i j => ptDist_nonneg _ _
  refine ⟨⟨?_, ?_, ?_⟩, ?_⟩
  · intro i
    fin_cases i <;> simp [emdW, Fin.sum_univ_two]
  · intro j
    fin_cases j <;> simp [emdW, Fin.sum_univ_two]
  · intro i j
    fin_cases i <;> fin_cases j <;> norm_num [emdW]
  · intro Q hQ
    have hP0 : transportCost (distance_matrix twoPointsN twoPointsN)
        (emdW (fun _ => 1 / ((2 : ℕ) : ℝ)) (fun _ => 1 / ((2 : ℕ) : ℝ))
          (distance_matrix twoPointsN twoPointsN)) = 0 := by
      rw [transportCost]
      rw [Fin.sum_univ_two]
      rw [Fin.sum_univ_two, Fin.sum_univ_two]
      simp [emdW, hdiag 0, hdiag 1]
    rw [hP0, transportCost]
    refine Finset.sum_nonneg (fun i _ => Finset.sum_nonneg (fun j _ => ?_))
    exact mul_nonneg (hQ.2.2 i j) (hDnn i j)

lemma mem_of_nodup_length_bound {l : List ℕ} {n : ℕ} (hlen : l.length = n)
    (hnd : l.Nodup) (hb : ∀ x ∈ l, x < n) {x : ℕ} (hx : x < n) : x ∈ l := by
  have hsub : l.toFinset ⊆ Finset.range n := fun y hy =>
    Finset.mem_range.mpr (hb y (List.mem_toFinset.mp hy))
  have hcard : (Finset.range n).card ≤ l.toFinset.card := by
    rw [Finset.card_range, List.toFinset_card_of_nodup hnd, hlen]
  have heq := Finset.eq_of_subset_of_card_le hsub hcard
  exact List.mem_toFinset.mp (by rw [heq]; exact Finset.mem_range.mpr hx)

lemma mem_zip_iff_getElem {l1 l2 : List ℕ} {a b : ℕ} :
    (a, b) ∈ l1.zip l2 ↔ ∃ p : ℕ, ∃ h1 : p < l1.length,
      ∃ h2 : p < l2.length, l1[p] = a ∧ l2[p] = b := by
  rw [List.mem_iff_getElem?]
  constructor
  · rintro ⟨p, hp⟩
    rw [List.getElem?_zip_eq_some] at hp
    obtain ⟨ha, hb⟩ := hp
    obtain ⟨h1, ha⟩ := List.getElem?_eq_some_iff.mp ha
    obtain ⟨h2, hb⟩ := List.getElem?_eq_some_iff.mp hb
    exact ⟨p, h1, h2, ha, hb⟩
  · rintro ⟨p, h1, h2, ha, hb⟩
    refine ⟨p, ?_⟩
    rw [List.getElem?_zip_eq_some]
    exact ⟨List.getElem?_eq_some_iff.mpr ⟨h1, ha⟩,
      List.getElem?_eq_some_iff.mpr ⟨h2, hb⟩⟩

lemma matched_row_exists_unique {n1 n2 : ℕ} {ri ci : List ℕ}
    (hok : MatcherOK n1 n2 (ri, ci)) (hle : n1 ≤ n2) (i : Fin n1) :
    ∃! j : Fin n2, (i.1, j.1) ∈ ri.zip ci := by
  obtain ⟨hr, hc, hrnd, hcnd, hrb, hcb⟩ := hok
  have hrlen : ri.length = n1 := by rw [hr]; omega
  have hclen : ci.length = n1 := by rw [hc]; omega
  have hmem : i.1 ∈ ri := mem_of_nodup_length_bound hrlen hrnd hrb i.2
  obtain ⟨p, hp, hpv⟩ := List.mem_iff_getElem.mp hmem
  have hpc : p < ci.length := by omega
  have hjb : ci[p] < n2 := hcb _ (List.getElem_mem hpc)
  refine ⟨⟨ci[p], hjb⟩, mem_zip_iff_getElem.mpr ⟨p, hp, hpc, hpv, rfl⟩, ?_⟩
  rintro j hj
  obtain ⟨q, hq1, hq2, hqa, hqb⟩ := mem_zip_iff_getElem.mp hj
  have hqp : q = p := hrnd.getElem_inj_iff.mp (by rw [hqa, hpv])
  subst hqp
  exact Fin.ext hqb.symm

lemma matched_col_exists_unique {n1 n2 : ℕ} {ri ci : List ℕ}
    (hok : MatcherOK n1 n2 (ri, ci)) (hle : n2 ≤ n1) (j : Fin n2) :
    ∃! i : Fin n1, (i.1, j.1) ∈ ri.zip ci := by
  obtain ⟨hr, hc, hrnd, hcnd, hrb, hcb⟩ := hok
  have hrlen : ri.length = n2 := by rw [hr]; omega
  have hclen : ci.length = n2 := by rw [hc]; omega
  have hmem : j.1 ∈ ci := mem_of_nodup_length_bound hclen hcnd hcb j.2
  obtain ⟨p, hp, hpv⟩ := List.mem_iff_getElem.mp hmem
  have hpr : p < ri.length := by omega
  have hib : ri[p] < n1 := hrb _ (List.getElem_mem hpr)
  refine ⟨⟨ri[p], hib⟩, mem_zip_iff_getElem.mpr ⟨p, hpr, hp, rfl, hpv⟩, ?_⟩
  rintro i hi
  obtain ⟨q, hq1, hq2, hqa, hqb⟩ := mem_zip_iff_getElem.mp hi
  have hqp : q = p := hcnd.getElem_inj_iff.mp (by rw [hqb, hpv])
  subst hqp
  exact Fin.ext hqa.symm

lemma buildPi_matched_lt {n1 n2 : ℕ} {ri ci : List ℕ} (h12 : n1 < n2)
    {i : Fin n1} {j : Fin n2} (hm : (i.1, j.1) ∈ ri.zip ci) :
    buildPi n1 n2 ri ci i j = 1 / (n2 : ℝ) := by
  have hjci : j.1 ∈ ci := (List.of_mem_zip hm).2
  simp [buildPi, h12, hjci, hm, Nat.max_eq_right h12.le]

lemma buildPi_unmatched_col {n1 n2 : ℕ} {ri ci : List ℕ} (h12 : n1 < n2)
    {j : Fin n2} (hj : j.1 ∉ ci) (i : Fin n1) :
    buildPi n1 n2 ri ci i j = 1 / ((n1 : ℝ) * (n2 : ℝ)) := by
  simp [buildPi, h12, hj]

lemma buildPi_unmatched_row {n1 n2 : ℕ} {ri ci : List ℕ} (h21 : n2 < n1)
    {i : Fin n1} (hi : i.1 ∉ ri) (j : Fin n2) :
    buildPi n1 n2 ri ci i j = 1 / ((n1 : ℝ) * (n2 : ℝ)) := by
  have hnot : ¬ n1 < n2 := by omega
  simp [buildPi, hnot, h21, hi]

lemma buildPi_eq_of_eq_dims {n : ℕ} (ri ci : List ℕ) (i j : Fin n) :
    buildPi n n ri ci i j =
      if (i.1, j.1) ∈ ri.zip ci then 1 / (n : ℝ) else 0 := by
  simp [buildPi, Nat.max_self]

/-- C1: with `use_ot=false` and `n1 < n2`, every row of the returned
matrix has exactly one matched entry, of value `1/n2`, and every column
not appearing in the matching holds `1/(n1*n2)` in all rows; symmetrically
when `n2 < n1`, every row not appearing in the matching holds `1/(n1*n2)`
across all columns.  The bipartite matching itself comes from an external
scipy solver, modelled by its documented contract `hok`. -/
theorem C1_bipartite_unequal {n1 n2 d : ℕ}
    (emd : (Fin n1 → ℝ) → (Fin n2 → ℝ) → (Fin n1 → Fin n2 → ℝ) →
      Fin n1 → Fin n2 → ℝ)
    (matcher : (Fin n1 → Fin n2 → ℝ) → List ℕ × List ℕ)
    (X : Fin n1 → Fin d → ℝ) (Y : Fin n2 → Fin d → ℝ)
    (X2 : Fin n1 → Fin d → ℝ) (Y2 : Fin n2 → Fin d → ℝ) (ri ci : List ℕ)
    (hX2 : norm_and_center_coordinates X = some X2)
    (hY2 : norm_and_center_coordinates Y = some Y2)
    (hrc : matcher (distance_matrix X2 Y2) = (ri, ci))
    (hok : MatcherOK n1 n2 (ri, ci)) :
    ∃ pi, match_spots_using_spatial_heuristic emd matcher X Y false =
        some pi ∧
      (n1 < n2 →
        (∀ i : Fin n1, ∃! j : Fin n2,
          (i.1, j.1) ∈ ri.zip ci ∧ pi i j = 1 / (n2 : ℝ)) ∧
        (∀ j : Fin n2, j.1 ∉ ci →
          ∀ i : Fin n1, pi i j = 1 / ((n1 : ℝ) * (n2 : ℝ)))) ∧
      (n2 < n1 →
        ∀ i : Fin n1, i.1 ∉ ri →
          ∀ j : Fin n2, pi i j = 1 / ((n1 : ℝ) * (n2 : ℝ))) := by
  refine ⟨buildPi n1 n2 ri ci, ?_, ?_, ?_⟩
  · rw [match_spots_false_eq emd matcher hX2 hY2, hrc]
  · intro h12
    constructor
    · intro i
      obtain ⟨j, hj, hju⟩ := matched_row_exists_unique hok h12.le i
      exact ⟨j, ⟨hj, buildPi_matched_lt h12 hj⟩, fun y hy => hju y hy.1⟩
    · intro j hj i
      exact buildPi_unmatched_col h12 hj i
  · intro h21 i hi j
    exact buildPi_unmatched_row h21 hi j

/-- The concrete three-point one-dimensional set {0, 1, 2} used as a
witness input. -/
def threePoints : Fin 3 → Fin 1 → ℝ := fun i _ => (i.1 : ℝ)

/-- The normalization of `threePoints`, written out for use in
witnesses. -/
noncomputable def threePointsN : Fin 3 → Fin 1 → ℝ :=
  fun i j => (threePoints i j - colMean threePoints j) /
    minPdist threePoints (by norm_num)

/-- A constant stand-in for the bipartite-matcher parameter at size
2-by-3. -/
def matcherW23 : (Fin 2 → Fin 3 → ℝ) → List ℕ × List ℕ :=
  fun _ => ([0, 1], [0, 1])

/-- A constant stand-in for the `ot.emd` parameter at size 2-by-3 (unused
in the `use_ot=false` branch). -/
noncomputable def emdW23 : (Fin 2 → ℝ) → (Fin 3 → ℝ) → (Fin 2 → Fin 3 → ℝ) →
    Fin 2 → Fin 3 → ℝ :=
  fun _ _ _ => fun _ _ => 0

/-- Witness for C1 matching the two-point set {0, 1} against the
three-point set {0, 1, 2}. -/
theorem C1_witness :
    ∃ pi, match_spots_using_spatial_heuristic emdW23 matcherW23 twoPoints
        threePoints false = some pi ∧
      ((2 : ℕ) < 3 →
        (∀ i : Fin 2, ∃! j : Fin 3,
          (i.1, j.1) ∈ ([0, 1] : List ℕ).zip ([0, 1] : List ℕ) ∧
            pi i j = 1 / ((3 : ℕ) : ℝ)) ∧
        (∀ j : Fin 3, j.1 ∉ ([0, 1] : List ℕ) →
          ∀ i : Fin 2, pi i j = 1 / (((2 : ℕ) : ℝ) * ((3 : ℕ) : ℝ)))) ∧
      ((3 : ℕ) < 2 →
        ∀ i : Fin 2, i.1 ∉ ([0, 1] : List ℕ) →
          ∀ j : Fin 3, pi i j = 1 / (((2 : ℕ) : ℝ) * ((3 : ℕ) : ℝ))) :=
  C1_bipartite_unequal emdW23 matcherW23 twoPoints threePoints twoPointsN
    threePointsN [0, 1] [0, 1]
    (norm_and_center_eq_some twoPoints (by norm_num))
    (norm_and_center_eq_some threePoints (by norm_num)) rfl
    ⟨by decide, by decide, by decide, by decide, by decide, by decide⟩

/-- C2: with `use_ot=false` and `n1 = n2 = n`, the returned matrix is a
permutation matrix scaled by `1/n`: exactly one nonzero entry per row and
per column, every entry either `1/n` or `0` (so no leftover-mass value
`1/(n*n)` appears anywhere).  The bipartite matching itself comes from an
external scipy solver, modelled by its documented contract `hok`. -/
theorem C2_bipartite_equal {n d : ℕ}
    (emd : (Fin n → ℝ) → (Fin n → ℝ) → (Fin n → Fin n → ℝ) →
      Fin n → Fin n → ℝ)
    (matcher : (Fin n → Fin n → ℝ) → List ℕ × List ℕ)
    (X Y : Fin n → Fin d → ℝ) (X2 Y2 : Fin n → Fin d → ℝ) (ri ci : List ℕ)
    (hX2 : norm_and_center_coordinates X = some X2)
    (hY2 : norm_and_center_coordinates Y = some Y2)
    (hrc : matcher (distance_matrix X2 Y2) = (ri, ci))
    (hok : MatcherOK n n (ri, ci)) :
    ∃ pi, match_spots_using_spatial_heuristic emd matcher X Y false =
        some pi ∧
      (∀ i : Fin n, ∃! j : Fin n, pi i j ≠ 0) ∧
      (∀ j : Fin n, ∃! i : Fin n, pi i j ≠ 0) ∧
      (∀ i j, pi i j = 1 / (n : ℝ) ∨ pi i j = 0) := by
  obtain ⟨h1, -⟩ := norm_and_center_spec hX2
  have hn0 : n ≠ 0 := by omega
  have hiff : ∀ i j : Fin n, (buildPi n n ri ci i j ≠ 0) ↔
      (i.1, j.1) ∈ ri.zip ci := by
    intro i j
    rw [buildPi_eq_of_eq_dims]
    by_cases hm : (i.1, j.1) ∈ ri.zip ci
    · simp [hm, hn0]
    · simp [hm]
  refine ⟨buildPi n n ri ci, ?_, ?_, ?_, ?_⟩
  · rw [match_spots_false_eq emd matcher hX2 hY2, hrc]
  · intro i
    exact (existsUnique_congr (fun j => (hiff i j).symm)).mp
      (matched_row_exists_unique hok le_rfl i)
  · intro j
    exact (existsUnique_congr (fun i => (hiff i j).symm)).mp
      (matched_col_exists_unique hok le_rfl j)
  · intro i j
    rw [buildPi_eq_of_eq_dims]
    by_cases hm : (i.1, j.1) ∈ ri.zip ci
    · exact Or.inl (by rw [if_pos hm])
    · exact Or.inr (by rw [if_neg hm])

/-- Witness for C2 matching the two-point set {0, 1} with itself. -/
theorem C2_witness :
    ∃ pi, match_spots_using_spatial_heuristic emdW matcherW twoPoints
        twoPoints false = some pi ∧
      (∀ i : Fin 2, ∃! j : Fin 2, pi i j ≠ 0) ∧
      (∀ j : Fin 2, ∃! i : Fin 2, pi i j ≠ 0) ∧
      (∀ i j, pi i j = 1 / ((2 : ℕ) : ℝ) ∨ pi i j = 0) :=
  C2_bipartite_equal emdW matcherW twoPoints twoPoints twoPointsN twoPointsN
    [0, 1] [0, 1] (norm_and_center_eq_some twoPoints (by norm_num))
    (norm_and_center_eq_some twoPoints (by norm_num)) rfl
    ⟨by decide, by decide, by decide, by decide, by decide, by decide⟩

end Paste
